import Mathlib

/-!
Verification of the IRC bot connection engine (ircbotframe.py).

The Python code is shallowly embedded: Python `str` values become `List Char`
(a Python string is a sequence of code points), Python byte strings become
`List Nat`, and the mutable `ircBot` / `ircInputBuffer` / `ircOutputBuffer`
objects become explicit state records transformed by pure functions.  Socket
effects (send success and received data) are passed in as explicit inputs.
Python operations used by the source (`find`, slicing, `strip`, `split`,
`startswith`, `endswith`, `in`) are modelled by the `py*` functions below with
Python's exact semantics (including negative slice indices and `-0 == 0`).
-/

namespace Irc

/-- Characters removed by Python `str.strip()` (the ASCII whitespace ones,
which are the only ones relevant to this protocol). -/
def isPySpace (c : Char) : Bool :=
  c = ' ' || c = '\t' || c = '\n' || c = '\r' || c = '\x0b' || c = '\x0c'

/-- Python `s.strip()`. -/
def pyStrip (s : List Char) : List Char :=
  ((s.dropWhile isPySpace).reverse.dropWhile isPySpace).reverse

/-- Python `s.find(pat)`: index of the first occurrence of `pat` in `s`,
`-1` if there is none. -/
def pyFind : List Char → List Char → Int
  | [], pat => if pat = [] then 0 else -1
  | c :: rest, pat =>
    if pat.isPrefixOf (c :: rest) then 0
    else if pyFind rest pat = -1 then -1 else pyFind rest pat + 1

/-- Python `pat in s` (substring containment). -/
def pyContains (s pat : List Char) : Bool :=
  pyFind s pat != -1

/-- Normalization of a Python slice bound: negative indices count from the
end, then the result is clamped into `[0, len]`. -/
def pyIdx (len : Nat) (i : Int) : Nat :=
  let j : Int := if i < 0 then i + len else i
  if j < 0 then 0 else min j.toNat len

/-- Python `s[a:b]`. -/
def pySlice {α : Type} (s : List α) (a b : Int) : List α :=
  let a2 := pyIdx s.length a
  let b2 := pyIdx s.length b
  (s.drop a2).take (b2 - a2)

/-- Python `s[a:]`. -/
def pySliceFrom {α : Type} (s : List α) (a : Int) : List α :=
  s.drop (pyIdx s.length a)

/-- Helper for Python-style splitting: prepend a character to the first
piece of a split result. -/
def consHead (c : Char) : List (List Char) → List (List Char)
  | [] => [[c]]
  | w :: ws => (c :: w) :: ws

/-- Python `s.split(" ")` (single-space separator, empty pieces kept). -/
def splitSpace : List Char → List (List Char)
  | [] => [[]]
  | c :: s => if c = ' ' then [] :: splitSpace s else consHead c (splitSpace s)

/-- Python `s.split("\r\n")` (two-character separator, leftmost
non-overlapping occurrences, empty pieces kept). -/
def splitCRLF : List Char → List (List Char)
  | [] => [[]]
  | [c] => [[c]]
  | c1 :: c2 :: s =>
    if c1 = '\r' ∧ c2 = '\n' then [] :: splitCRLF s
    else consHead c1 (splitCRLF (c2 :: s))

/-- Helper for Python `s.split()` (whitespace runs, empties dropped). -/
def splitWsAux : List Char → List Char → List (List Char)
  | [], acc => if acc = [] then [] else [acc.reverse]
  | c :: rest, acc =>
    if isPySpace c then
      if acc = [] then splitWsAux rest [] else acc.reverse :: splitWsAux rest []
    else splitWsAux rest (c :: acc)

/-- Python `s.split()` with no argument: split on whitespace runs, dropping
empty pieces. -/
def pySplitWs (s : List Char) : List (List Char) :=
  splitWsAux s []

/-- Python `lst[-1]` on a (possibly empty) list, with a default. -/
def lastD {α : Type} : List α → α → α
  | [], d => d
  | [a], _ => a
  | _ :: a :: as, d => lastD (a :: as) d

/-- Valid UTF-8 continuation byte. -/
def utf8ContB (b : Nat) : Bool :=
  0x80 ≤ b && b ≤ 0xBF

/-- Lower bound for the second byte of a three-byte sequence (RFC 3629). -/
def utf8Lo3 (b : Nat) : Nat := if b = 0xE0 then 0xA0 else 0x80

/-- Upper bound for the second byte of a three-byte sequence (RFC 3629,
excluding surrogates). -/
def utf8Hi3 (b : Nat) : Nat := if b = 0xED then 0x9F else 0xBF

/-- Lower bound for the second byte of a four-byte sequence. -/
def utf8Lo4 (b : Nat) : Nat := if b = 0xF0 then 0x90 else 0x80

/-- Upper bound for the second byte of a four-byte sequence (capping at
U+10FFFF). -/
def utf8Hi4 (b : Nat) : Nat := if b = 0xF4 then 0x8F else 0xBF

/-- Decode one UTF-8 scalar from the front of a byte list, returning the
decoded character and the remaining bytes, or `none` on invalid input.
This models the per-character validation of Python's strict
`bytes.decode("utf-8")`. -/
def utf8DecodeOne : List Nat → Option (Char × List Nat)
  | [] => none
  | b :: bs =>
    if b ≤ 0x7F then some (Char.ofNat b, bs)
    else if 0xC2 ≤ b ∧ b ≤ 0xDF then
      match bs with
      | b2 :: rest =>
        if utf8ContB b2 then
          some (Char.ofNat ((b - 0xC0) * 0x40 + (b2 - 0x80)), rest)
        else none
      | [] => none
    else if 0xE0 ≤ b ∧ b ≤ 0xEF then
      match bs with
      | b2 :: b3 :: rest =>
        if (utf8Lo3 b ≤ b2 ∧ b2 ≤ utf8Hi3 b) ∧ utf8ContB b3 then
          some (Char.ofNat ((b - 0xE0) * 0x1000 + (b2 - 0x80) * 0x40 + (b3 - 0x80)), rest)
        else none
      | _ => none
    else if 0xF0 ≤ b ∧ b ≤ 0xF4 then
      match bs with
      | b2 :: b3 :: b4 :: rest =>
        if (utf8Lo4 b ≤ b2 ∧ b2 ≤ utf8Hi4 b) ∧ utf8ContB b3 ∧ utf8ContB b4 then
          some (Char.ofNat
            ((b - 0xF0) * 0x40000 + (b2 - 0x80) * 0x1000 + (b3 - 0x80) * 0x40 + (b4 - 0x80)), rest)
        else none
      | _ => none
    else none

/-- Fuelled decoding loop (the fuel only bounds the number of decoded
characters; every decoded character consumes at least one byte, so a fuel of
the byte count is always enough). -/
def utf8DecodeGo : Nat → List Nat → Option (List Char)
  | _, [] => some []
  | 0, _ :: _ => none
  | fuel + 1, b :: bs =>
    match utf8DecodeOne (b :: bs) with
    | none => none
    | some (c, rest) => (utf8DecodeGo fuel rest).map (fun cs => c :: cs)

/-- Python `bytes.decode("utf-8")` (strict): decode the whole byte list or
fail. -/
def utf8Decode (l : List Nat) : Option (List Char) :=
  utf8DecodeGo l.length l

/-- State of `ircInputBuffer` (the Line Framer): the retained fragment
(`self.buffer`) and the queued complete lines (`self.lines`). -/
structure InputBuffer where
  buffer : List Char
  lines : List (List Char)
deriving DecidableEq

/-- One call of `ircInputBuffer.__recv`, fed the bytes returned by
`self.irc.recv(4096)`.  A `UnicodeDecodeError` makes the whole `data`
expression evaluate to the empty string (note: this drops `self.buffer` too,
because `self.buffer + ...decode()` is what is being guarded).  The new data
is split on CRLF; the last piece becomes the new retained fragment and the
rest are appended to the line queue. -/
def recvStep (st : InputBuffer) (bytes : List Nat) : InputBuffer :=
  let data : List Char :=
    match utf8Decode bytes with
    | some cs => st.buffer ++ cs
    | none => []
  let ls := st.lines ++ splitCRLF data
  { buffer := lastD ls [], lines := pySlice ls 0 (-1) }

/-- The same step, stated directly on already-decoded text. -/
def recvChars (st : InputBuffer) (cs : List Char) : InputBuffer :=
  let ls := st.lines ++ splitCRLF (st.buffer ++ cs)
  { buffer := lastD ls [], lines := pySlice ls 0 (-1) }

/-- Feeding a sequence of byte chunks one `__recv` call at a time. -/
def feedAll (st : InputBuffer) : List (List Nat) → InputBuffer
  | [] => st
  | c :: cs => feedAll (recvStep st c) cs

/-- The string constant PRIVMSG. -/
def kPRIVMSG : List Char := ['P', 'R', 'I', 'V', 'M', 'S', 'G']

/-- The string constant ACTION. -/
def kACTION : List Char := ['A', 'C', 'T', 'I', 'O', 'N']

/-- The string constant PING. -/
def kPING : List Char := ['P', 'I', 'N', 'G']

/-- The string constant PONG. -/
def kPONG : List Char := ['P', 'O', 'N', 'G']

/-- The string constant "PONG " (with trailing space). -/
def kPONGsp : List Char := ['P', 'O', 'N', 'G', ' ']

/-- The numeric 376 (end of MOTD, treated as the welcome numeric). -/
def k376 : List Char := ['3', '7', '6']

/-- The numeric 307 (WHOIS: registered nick indicator). -/
def k307 : List Char := ['3', '0', '7']

/-- The numeric 330 (WHOIS: logged-in-as indicator). -/
def k330 : List Char := ['3', '3', '0']

/-- The numeric 318 (end of WHOIS). -/
def k318 : List Char := ['3', '1', '8']

/-- The string constant "WHOIS " (with trailing space). -/
def kWHOISsp : List Char := ['W', 'H', 'O', 'I', 'S', ' ']

/-- The string constant "JOIN " (with trailing space). -/
def kJOINsp : List Char := ['J', 'O', 'I', 'N', ' ']

/-- The CTCP delimiter byte 0x01 as written in the source (`'\001'`). -/
def kCtcp : Char := '\x01'

/-- The CTCP ACTION opener `'\001ACTION '`. -/
def kActionPre : List Char := ['\x01', 'A', 'C', 'T', 'I', 'O', 'N', ' ']

/-- Result of `ircBot.__processLine`'s header/message split, the part of the
function up to and including the assignment of `headers` and `message`
(lines 162-181 of ircbotframe.py). -/
def parseHeaders (line : List Char) : List (List Char) × List Char :=
  let lastColon : Int :=
    if pyContains line ['@'] then
      let a := pyFind line ['@']
      let gap := pyFind (pySliceFrom line a) [' '] + a + 1
      pyFind (pySliceFrom line (gap + 1)) [':'] + 2 + gap
    else
      pyFind (pySliceFrom line 1) [':'] + 1
  if pyContains (pySliceFrom line 1) [':'] = false then
    (splitSpace (pyStrip (pySliceFrom line 1)), [])
  else
    (splitSpace (pyStrip (pySlice line 1 (lastColon - 1))), pySliceFrom line lastColon)

/-- A parsed protocol event as handed to `__callBind`:
`(msgtype, sender, headers[2:], message)`. -/
structure Event where
  sender : List Char
  command : List Char
  params : List (List Char)
  trailing : List Char
deriving DecidableEq

/-- The event that `ircBot.__processLine` dispatches for a given line
(`none` when nothing is dispatched: fewer than two headers, or the Python
code raises `IndexError` on `headers[2]` for a PRIVMSG with no target). -/
def processLineEvent (line : List Char) : Option Event :=
  let hm := parseHeaders line
  let headers := hm.1
  let message := hm.2
  let sender := headers.headD []
  if headers.length < 2 then none
  else
    let msgtype := headers.getD 1 []
    if pyContains sender ['!'] then
      let cut := pyFind sender ['!']
      let sender2 := if cut ≠ -1 then pySlice sender 0 cut else sender
      if msgtype = kPRIVMSG then
        let isAct := kActionPre.isPrefixOf message && [kCtcp].isSuffixOf message
        let msgtype2 := if isAct then kACTION else msgtype
        let message2 := if isAct then pySlice message 8 (-1) else message
        match headers.get? 2 with
        | none => none
        | some _ => some ⟨sender2, msgtype2, headers.drop 2, message2⟩
      else some ⟨sender2, msgtype, headers.drop 2, message⟩
    else some ⟨sender, msgtype, headers.drop 2, message⟩

/-- A pending identify record `(nick, approvedFunc/Params, deniedFunc/Params)`;
the callbacks are opaque to the engine, so they are modelled by identifiers. -/
structure IdRec where
  nick : List Char
  acceptId : Nat
  rejectId : Nat
deriving DecidableEq

/-- Per-channel data stored in `ircBot.channel_data`. -/
structure ChanData where
  log : List (List Char × List Char × List (List Char) × List Char)
  log_length : Nat
deriving DecidableEq

/-- A dispatch-table entry: either the engine's own `__handlePong` or an
opaque host-supplied callback. -/
inductive Handler where
  | pongHandler
  | host (id : Nat)
deriving DecidableEq

/-- A recorded identify-callback invocation. -/
inductive CallEv where
  | accept (id : Nat)
  | reject (id : Nat)
deriving DecidableEq

/-- Lookup in a Python dict modelled as an association list. -/
def assocGet {α : Type} : List (List Char × α) → List Char → Option α
  | [], _ => none
  | (k2, v) :: rest, k => if k2 = k then some v else assocGet rest k

/-- Update/insert in a Python dict modelled as an association list. -/
def assocSet {α : Type} : List (List Char × α) → List Char → α → List (List Char × α)
  | [], k, v => [(k, v)]
  | (k2, v2) :: rest, k, v =>
    if k2 = k then (k, v) :: rest else (k2, v2) :: assocSet rest k v

/-- The engine state: the mutable fields of `ircBot` touched by the code under
verification, plus observable traces.  `socketOpen` models `self.irc` being
non-`None`; `sent` records the strings passed to the socket by
`sendImmediately` (in order); `calls` records identify-callback invocations;
`dispatches` records `__callBind` handler invocations. -/
structure BotState where
  socketOpen : Bool
  connected : Bool
  identifyNickCommands : List IdRec
  identifyLock : Bool
  unansweredPing : Bool
  default_log_length : Nat
  channel_data : List (List Char × ChanData)
  binds : List (List Char × Handler)
  outQueue : List (List Char)
  sent : List (List Char)
  calls : List CallEv
  dispatches : List Handler
deriving DecidableEq

/-- The dispatch table as initialized by `ircBot.__init__`:
`self.bind("PONG", self.__handlePong)`. -/
def initBinds : List (List Char × Handler) := [(kPONG, Handler.pongHandler)]

/-- Model of `ircOutputBuffer.sendBuffered`: `queue.put_nowait`. -/
def sendBuffered (st : BotState) (s : List Char) : BotState :=
  { st with outQueue := st.outQueue ++ [s] }

/-- Model of `ircOutputBuffer.sendImmediately`.  `ok` is the outcome of the socket
`send` call (`false` models `socket.error`); returns the Python result. -/
def sendImmediately (st : BotState) (s : List Char) (ok : Bool) : BotState × Bool :=
  if ok then ({ st with sent := st.sent ++ [s] }, true) else (st, false)

/-- Model of `ircOutputBuffer.sendFromQueue`: pop and send the oldest message, if any. -/
def sendFromQueue (st : BotState) (ok : Bool) : BotState × Bool :=
  match st.outQueue with
  | [] => (st, true)
  | s :: rest => sendImmediately { st with outQueue := rest } s ok

/-- Model of `ircBot.close`: drops both buffer objects (discarding the queue), closes
and clears the socket, and clears `connected`. -/
def close (st : BotState) : BotState :=
  { st with socketOpen := false, connected := false, outQueue := [] }

/-- The loop shared by `ircBot.__identAccept` and `ircBot.__identReject`:
walk `identifyNickCommands`, invoke the accept (resp. reject) callback of
every record whose nick matches, and remove those records, keeping order. -/
def identResolve (isAccept : Bool) (nick : List Char) :
    List IdRec → List CallEv × List IdRec
  | [] => ([], [])
  | r :: rs =>
    let pr := identResolve isAccept nick rs
    if r.nick = nick then
      ((if isAccept then CallEv.accept r.acceptId else CallEv.reject r.rejectId) :: pr.1, pr.2)
    else
      (pr.1, r :: pr.2)

/-- Model of `ircBot.__identAccept`. -/
def identAcceptFn (st : BotState) (nick : List Char) : BotState :=
  let pr := identResolve true nick st.identifyNickCommands
  { st with calls := st.calls ++ pr.1, identifyNickCommands := pr.2 }

/-- Model of `ircBot.__identReject`. -/
def identRejectFn (st : BotState) (nick : List Char) : BotState :=
  let pr := identResolve false nick st.identifyNickCommands
  { st with calls := st.calls ++ pr.1, identifyNickCommands := pr.2 }

/-- Model of `ircBot.__callBind`: look up the dispatch table; a missing binding is a
no-op.  Invoking the engine's own `__handlePong` clears `unansweredPing`;
host callbacks are opaque and only recorded. -/
def callBind (st : BotState) (msgtype : List Char) : BotState :=
  match assocGet st.binds msgtype with
  | none => st
  | some Handler.pongHandler =>
    { st with unansweredPing := false,
              dispatches := st.dispatches ++ [Handler.pongHandler] }
  | some (Handler.host i) => { st with dispatches := st.dispatches ++ [Handler.host i] }

/-- Model of `ircBot.log`: append to a known channel's log and trim it to
`log[-log_length:]` when it exceeds the configured length; unknown channels
are ignored. -/
def logFn (st : BotState) (channel msgtype sender : List Char)
    (headers : List (List Char)) (message : List Char) : BotState :=
  match assocGet st.channel_data channel with
  | none => st
  | some cd =>
    let lg := cd.log ++ [(msgtype, sender, headers, message)]
    let lg2 := if lg.length > cd.log_length
      then pySliceFrom lg (-(cd.log_length : Int)) else lg
    { st with channel_data :=
        assocSet st.channel_data channel { log := lg2, log_length := cd.log_length } }

/-- Model of `ircBot.__processLine` (lines 162-212).  Returns `none` when the Python
code raises `IndexError` (`headers[2]` on a PRIVMSG with only two headers);
otherwise the updated engine state. -/
def processLine (st : BotState) (line : List Char) : Option BotState :=
  let hm := parseHeaders line
  let headers := hm.1
  let message := hm.2
  let sender := headers.headD []
  if headers.length < 2 then some st
  else
    let msgtype := headers.getD 1 []
    if pyContains sender ['!'] then
      let cut := pyFind sender ['!']
      let sender2 := if cut ≠ -1 then pySlice sender 0 cut else sender
      if msgtype = kPRIVMSG then
        let isAct := kActionPre.isPrefixOf message && [kCtcp].isSuffixOf message
        let msgtype2 := if isAct then kACTION else msgtype
        let message2 := if isAct then pySlice message 8 (-1) else message
        match headers.get? 2 with
        | none => none
        | some h2 =>
          let st1 := if ['#'].isPrefixOf h2
            then logFn st h2 msgtype2 sender2 (headers.drop 2) message2 else st
          some (callBind st1 msgtype2)
      else
        some (callBind st msgtype)
    else
      let st1 := if msgtype = k376 then { st with connected := true } else st
      let st2 := if (msgtype = k307 ∨ msgtype = k330) ∧ 4 ≤ headers.length
        then identAcceptFn st1 (headers.getD 3 []) else st1
      let st3 := if msgtype = k318 ∧ 4 ≤ headers.length then
          let str := identRejectFn st2 (headers.getD 3 [])
          if str.identifyNickCommands.length = 0 then { str with identifyLock := false }
          else sendBuffered str (kWHOISsp ++ (str.identifyNickCommands.headD ⟨[], 0, 0⟩).nick)
        else st2
      some (callBind st3 msgtype)

/-- Outcome of `ircInputBuffer.getLine` as seen by `__periodicRecv`:
a timeout (`None`), a raised `socket.error`, or a complete line. -/
inductive RecvOutcome where
  | timeout
  | sockErr
  | line (l : List Char)

/-- Model of `ircBot.__periodicSend`.  `ok` is the socket-send outcome used if a
message is dequeued.  The second component is the re-scheduled
`(delay in ms, priority)`, `none` when the action does not re-schedule. -/
def periodicSend (st : BotState) (ok : Bool) : BotState × Option (Nat × Nat) :=
  if st.socketOpen = false then (st, none)
  else
    let r := sendFromQueue st ok
    if r.2 = false then (close r.1, none)
    else (r.1, some (1000, 10))

/-- Model of `ircBot.__periodicRecv`.  `r` is the outcome of `getLine`, `ok` the
socket-send outcome used if a PONG reply is emitted.  `none` models an
uncaught exception: `IndexError` from `line.split()[1]` or `headers[2]`, and
also the `socket.error` handler itself, whose `self.__debugPrint("Input
error", msg)` passes two arguments to the one-parameter `__debugPrint` and
raises `TypeError` before `self.close()` runs — so a socket error crashes the
action with the state unchanged rather than closing the connection.
The second component is the re-scheduled `(delay in ms, priority)`. -/
def periodicRecv (st : BotState) (r : RecvOutcome) (ok : Bool) :
    Option (BotState × Option (Nat × Nat)) :=
  if st.socketOpen = false then some (st, none)
  else
    match r with
    | RecvOutcome.sockErr => none
    | RecvOutcome.timeout => some (st, some (10, 1))
    | RecvOutcome.line l =>
      if kPING.isPrefixOf l then
        match (pySplitWs l).get? 1 with
        | none => none
        | some tok =>
          let sr := sendImmediately st (kPONGsp ++ tok) ok
          if sr.2 = false then some (close sr.1, none)
          else some (sr.1, some (10, 1))
      else
        match processLine st l with
        | none => none
        | some st2 => some (st2, some (10, 1))

/-- Model of `ircBot.send`.  When `connected` the message is queued and the
call returns normally (second component `true`).  When not connected the code
executes `self.__debugPrint("WARNING: ... \"", string, "\"")` — three
arguments passed to the one-parameter `__debugPrint` — which raises
`TypeError` at the call, before the `return`: the state is unchanged and the
exception escapes `send` (second component `false`). -/
def sendFn (st : BotState) (s : List Char) : BotState × Bool :=
  if st.connected = false then (st, false) else (sendBuffered st s, true)

/-- Model of `ircBot.identify`: append the pending record; if no WHOIS is in
flight, send one and take the lock.  If `send` raises (not connected), the
exception propagates out of `identify` before `self.identifyLock = True` is
executed, so the lock is left as it was; the second component is `false`
when the exception escapes. -/
def identifyFn (st : BotState) (nick : List Char) (acceptId rejectId : Nat) : BotState × Bool :=
  let st1 := { st with identifyNickCommands := st.identifyNickCommands ++ [⟨nick, acceptId, rejectId⟩] }
  if st1.identifyLock = false then
    let pr := sendFn st1 (kWHOISsp ++ nick)
    if pr.2 then ({ pr.1 with identifyLock := true }, true) else (pr.1, false)
  else (st1, true)

/-- Model of `ircBot.joinchan`: (re)initialize the channel's log state, then
send JOIN.  The channel entry is replaced before `send` is called, so the
replacement persists even when `send` raises (second component `false`). -/
def joinchanFn (st : BotState) (channel : List Char) : BotState × Bool :=
  let st1 := { st with channel_data := assocSet st.channel_data channel ⟨[], st.default_log_length⟩ }
  sendFn st1 (kJOINsp ++ channel)

/-- The scenario line `:nick!user@host PRIVMSG #chan :hello`. -/
def c1Line : List Char :=
  [':', 'n', 'i', 'c', 'k', '!', 'u', 's', 'e', 'r', '@', 'h', 'o', 's', 't', ' ',
   'P', 'R', 'I', 'V', 'M', 'S', 'G', ' ', '#', 'c', 'h', 'a', 'n', ' ',
   ':', 'h', 'e', 'l', 'l', 'o']

/-- A plain running engine state (socket open, connected, empty queues) used
for scenario witnesses. -/
def st0 : BotState :=
  { socketOpen := true, connected := true, identifyNickCommands := [],
    identifyLock := false, unansweredPing := false, default_log_length := 200,
    channel_data := [], binds := initBinds, outQueue := [], sent := [],
    calls := [], dispatches := [] }

/-- The line `PING :abc`. -/
def kPingAbc : List Char := ['P', 'I', 'N', 'G', ' ', ':', 'a', 'b', 'c']

/-- The string `PONG :abc`. -/
def kPongColonAbc : List Char := ['P', 'O', 'N', 'G', ' ', ':', 'a', 'b', 'c']

/-- The string `PONG abc`. -/
def kPongAbc : List Char := ['P', 'O', 'N', 'G', ' ', 'a', 'b', 'c']

/-- A sequence of `log` calls for one channel (entries are
`(msgtype, sender, headers, message)`). -/
def logMany (st : BotState) (channel : List Char) :
    List (List Char × List Char × List (List Char) × List Char) → BotState
  | [] => st
  | e :: es => logMany (logFn st channel e.1 e.2.1 e.2.2.1 e.2.2.2) channel es

/-- A state with one joined channel `#c` whose log capacity is 0 (the host
can configure this through `default_log_length`). -/
def chan0St : BotState := { st0 with channel_data := [(['#', 'c'], ⟨[], 0⟩)] }

/-- A state with one joined channel `#c` of capacity 1. -/
def cap1St : BotState := { st0 with channel_data := [(['#', 'c'], ⟨[], 1⟩)] }

/-- The engine state right after `identify("bob", accept@1, reject@2)` from
the plain running state (connected, so the `identify` call completes
normally). -/
def c4State : BotState := (identifyFn st0 ['b', 'o', 'b'] 1 2).1

/-- The line `:srv 318 me bob`. -/
def k318Line : List Char :=
  [':', 's', 'r', 'v', ' ', '3', '1', '8', ' ', 'm', 'e', ' ', 'b', 'o', 'b']

/-- The engine state after the 318 for bob: reject callback 2 invoked once,
the pending list empty, the lock released. -/
def c4After : BotState :=
  { st0 with outQueue := [kWHOISsp ++ ['b', 'o', 'b']], calls := [CallEv.reject 2],
             identifyLock := false }

/-- A running state that is awaiting a PONG. -/
def stAwait : BotState := { st0 with unansweredPing := true }

/-- The line `:srv PONG srv`. -/
def kPongLine : List Char :=
  [':', 's', 'r', 'v', ' ', 'P', 'O', 'N', 'G', ' ', 's', 'r', 'v']

theorem consHead_ne_nil (c : Char) (l : List (List Char)) : consHead c l ≠ [] := by
  cases l <;> simp [consHead]

theorem splitCRLF_ne_nil (s : List Char) : splitCRLF s ≠ [] := by
  induction s using splitCRLF.induct with
  | case1 => simp [splitCRLF]
  | case2 c => simp [splitCRLF]
  | case3 c1 c2 s h ih => simp [splitCRLF, h]
  | case4 c1 c2 s h ih => simp [splitCRLF, h, consHead_ne_nil]

theorem splitCRLF_singleton (s w : List Char) (h : splitCRLF s = [w]) : w = s := by
  induction s using splitCRLF.induct generalizing w with
  | case1 => simp [splitCRLF] at h; simp_all
  | case2 c => simp [splitCRLF] at h; simp_all
  | case3 c1 c2 s hc ih =>
    rw [splitCRLF, if_pos hc] at h
    exact absurd (List.cons_eq_cons.mp h).2 (splitCRLF_ne_nil s)
  | case4 c1 c2 s hc ih =>
    rw [splitCRLF, if_neg hc] at h
    rcases hp : splitCRLF (c2 :: s) with _ | ⟨p, ps⟩
    · exact absurd hp (splitCRLF_ne_nil _)
    · rw [hp, consHead] at h
      rcases List.cons_eq_cons.mp h with ⟨h1, h2⟩
      rcases ps with _ | ⟨q, qs⟩
      · have := ih p (by rw [hp])
        simp [← h1, this]
      · simp at h2

theorem lastD_cons_cons {α : Type} (x y : α) (l : List α) (d : α) :
    lastD (x :: y :: l) d = lastD (y :: l) d := rfl

theorem lastD_append_ne {α : Type} (xs ys : List α) (d : α) (h : ys ≠ []) :
    lastD (xs ++ ys) d = lastD ys d := by
  induction xs with
  | nil => simp
  | cons x xs ih =>
    rcases xs with _ | ⟨y, ys2⟩
    · rcases ys with _ | ⟨z, zs⟩
      · exact absurd rfl h
      · simp [lastD_cons_cons, ih]
    · simp only [List.cons_append] at ih ⊢
      rw [lastD_cons_cons, ih]

theorem dropLast_cons_cons {α : Type} (x y : α) (l : List α) :
    (x :: y :: l).dropLast = x :: (y :: l).dropLast := rfl

theorem dropLast_append_ne {α : Type} (xs ys : List α) (h : ys ≠ []) :
    (xs ++ ys).dropLast = xs ++ ys.dropLast := by
  induction xs with
  | nil => simp
  | cons x xs ih =>
    rcases xs with _ | ⟨y, ys2⟩
    · rcases ys with _ | ⟨z, zs⟩
      · exact absurd rfl h
      · simp [List.dropLast]
    · simp only [List.cons_append] at ih ⊢
      rw [dropLast_cons_cons, ih]

/-- Key compositionality property of Python `split("\r\n")`: splitting `s ++ t`
produces the complete pieces of `s` followed by the split of the retained last
piece of `s` glued onto `t`.  This is exactly why the input buffer's
retain-last-fragment scheme is chunk-boundary independent. -/
theorem splitCRLF_append (s t : List Char) :
    splitCRLF (s ++ t) =
      (splitCRLF s).dropLast ++ splitCRLF (lastD (splitCRLF s) [] ++ t) := by
  induction s using splitCRLF.induct with
  | case1 => simp [splitCRLF, lastD]
  | case2 c => simp [splitCRLF, consHead, lastD]
  | case3 c1 c2 s hc ih =>
    rcases hc with ⟨h1, h2⟩
    subst h1; subst h2
    rw [List.cons_append, List.cons_append]
    rw [splitCRLF, if_pos ⟨rfl, rfl⟩]
    conv_rhs => rw [splitCRLF, if_pos ⟨rfl, rfl⟩]
    rcases hP : splitCRLF s with _ | ⟨p, ps⟩
    · exact absurd hP (splitCRLF_ne_nil _)
    · rw [ih, hP, dropLast_cons_cons, lastD_cons_cons, List.cons_append]
  | case4 c1 c2 s hc ih =>
    have e1 : splitCRLF (c1 :: c2 :: s) = consHead c1 (splitCRLF (c2 :: s)) := by
      rw [splitCRLF, if_neg hc]
    have e2 : splitCRLF (c1 :: c2 :: (s ++ t)) = consHead c1 (splitCRLF ((c2 :: s) ++ t)) := by
      rw [splitCRLF, if_neg hc]; rfl
    rw [List.cons_append, List.cons_append, e2, e1]
    rcases hP : splitCRLF (c2 :: s) with _ | ⟨p, ps⟩
    · exact absurd hP (splitCRLF_ne_nil _)
    · rcases ps with _ | ⟨p2, ps2⟩
      · -- the split of `c2 :: s` is a single piece, which must be `c2 :: s` itself
        have hw : p = c2 :: s := splitCRLF_singleton _ _ hP
        have e3 : splitCRLF ((c1 :: p) ++ t) = consHead c1 (splitCRLF ((c2 :: s) ++ t)) := by
          rw [hw]; exact e2
        have hch : consHead c1 [p] = [c1 :: p] := rfl
        rw [hch]
        have hdl : ([c1 :: p] : List (List Char)).dropLast = [] := rfl
        have hld : lastD [c1 :: p] [] = c1 :: p := rfl
        rw [hdl, hld, List.nil_append, e3]
      · rw [ih, hP]
        simp only [dropLast_cons_cons, lastD_cons_cons, List.cons_append, consHead]

set_option maxRecDepth 8000 in
theorem utf8DecodeOne_length {l : List Nat} {c : Char} {rest : List Nat}
    (h : utf8DecodeOne l = some (c, rest)) : rest.length < l.length := by
  rw [utf8DecodeOne.eq_def] at h
  repeat' split at h
  all_goals simp_all
  all_goals omega

theorem utf8DecodeGo_congr : ∀ (f1 f2 : Nat) (l : List Nat),
    l.length ≤ f1 → l.length ≤ f2 → utf8DecodeGo f1 l = utf8DecodeGo f2 l := by
  intro f1
  induction f1 with
  | zero =>
    intro f2 l h1 h2
    have hl : l = [] := List.eq_nil_of_length_eq_zero (Nat.le_zero.mp h1)
    subst hl
    cases f2 <;> simp [utf8DecodeGo]
  | succ f1 ih =>
    intro f2 l h1 h2
    cases l with
    | nil => cases f2 <;> simp [utf8DecodeGo]
    | cons b bs =>
      cases f2 with
      | zero => simp at h2
      | succ f2 =>
        rw [utf8DecodeGo, utf8DecodeGo]
        rcases hone : utf8DecodeOne (b :: bs) with _ | ⟨c, rest⟩
        · rfl
        · have hlt := utf8DecodeOne_length hone
          simp only [hone]
          rw [ih f2 rest (by simp at h1 hlt ⊢; omega) (by simp at h2 hlt ⊢; omega)]

set_option maxRecDepth 8000 in
theorem utf8DecodeOne_append {l : List Nat} {c : Char} {rest : List Nat} (t : List Nat)
    (h : utf8DecodeOne l = some (c, rest)) :
    utf8DecodeOne (l ++ t) = some (c, rest ++ t) := by
  match l with
  | [] => simp [utf8DecodeOne] at h
  | b :: bs =>
    rw [utf8DecodeOne.eq_def] at h
    repeat' split at h
    all_goals simp_all [utf8DecodeOne]
    all_goals (repeat' split)
    all_goals first
      | rfl
      | omega

theorem utf8Decode_nil : utf8Decode [] = some [] := rfl

theorem utf8Decode_eq_none {l : List Nat} (h : utf8DecodeOne l = none) :
    utf8Decode l = if l = [] then some [] else none := by
  cases l with
  | nil => rfl
  | cons b bs => simp [utf8Decode, utf8DecodeGo, h]

theorem utf8Decode_eq_some {l : List Nat} {c : Char} {rest : List Nat}
    (h : utf8DecodeOne l = some (c, rest)) :
    utf8Decode l = (utf8Decode rest).map (fun cs => c :: cs) := by
  cases l with
  | nil => simp [utf8DecodeOne] at h
  | cons b bs =>
    have hlt := utf8DecodeOne_length h
    rw [utf8Decode, List.length_cons, utf8DecodeGo, h]
    dsimp only
    rw [utf8DecodeGo_congr bs.length rest.length rest (by simp at hlt; omega) (le_refl _)]
    rfl

/-- Successfully decodable byte runs concatenate: decoding `a ++ b` decodes
`a`'s characters followed by whatever `b` decodes to. -/
theorem utf8Decode_append (a b : List Nat) (x : List Char)
    (h : utf8Decode a = some x) :
    utf8Decode (a ++ b) = (utf8Decode b).map (fun cs => x ++ cs) := by
  have main : ∀ (n : Nat) (a2 : List Nat) (x2 : List Char), a2.length ≤ n →
      utf8Decode a2 = some x2 →
      utf8Decode (a2 ++ b) = (utf8Decode b).map (fun cs => x2 ++ cs) := by
    intro n
    induction n with
    | zero =>
      intro a2 x2 hlen ha
      have hn : a2 = [] := List.eq_nil_of_length_eq_zero (Nat.le_zero.mp hlen)
      subst hn
      rw [utf8Decode_nil] at ha
      injection ha with ha2
      simp [← ha2]
    | succ n ih =>
      intro a2 x2 hlen ha
      rcases hone : utf8DecodeOne a2 with _ | ⟨c, rest⟩
      · rw [utf8Decode_eq_none hone] at ha
        by_cases hnl : a2 = []
        · subst hnl
          rw [if_pos rfl] at ha
          injection ha with ha2
          simp [← ha2]
        · rw [if_neg hnl] at ha; cases ha
      · rw [utf8Decode_eq_some hone] at ha
        rcases Option.map_eq_some'.mp ha with ⟨x3, hx3, hxx⟩
        subst hxx
        have hlt := utf8DecodeOne_length hone
        rw [utf8Decode_eq_some (utf8DecodeOne_append b hone),
          ih rest x3 (by omega) hx3, Option.map_map]
        rcases utf8Decode b with _ | y <;> simp
  exact main a.length a x (le_refl _) h

theorem utf8Decode_flatten (chunks : List (List Nat))
    (h : ∀ c ∈ chunks, (utf8Decode c).isSome) :
    utf8Decode chunks.flatten =
      some (chunks.map (fun c => (utf8Decode c).getD [])).flatten := by
  induction chunks with
  | nil => simp [utf8Decode_nil]
  | cons ch chs ih =>
    have h1 : (utf8Decode ch).isSome := h ch (by simp)
    rcases hd : utf8Decode ch with _ | d
    · rw [hd] at h1; cases h1
    · rw [List.flatten_cons, utf8Decode_append ch chs.flatten d hd,
        ih (fun c hc => h c (List.mem_cons_of_mem _ hc))]
      simp [hd]

theorem pyIdx_zero (len : Nat) : pyIdx len 0 = 0 := by
  simp only [pyIdx]
  split_ifs <;> omega

theorem pyIdx_neg_one (len : Nat) : pyIdx len (-1) = len - 1 := by
  simp only [pyIdx]
  split_ifs <;> omega

theorem pySlice_zero_neg_one {α : Type} (l : List α) :
    pySlice l 0 (-1) = l.dropLast := by
  rw [pySlice, pyIdx_zero, pyIdx_neg_one, List.drop_zero, Nat.sub_zero,
    List.dropLast_eq_take]

theorem recvStep_eq_recvChars {bytes : List Nat} {cs : List Char}
    (st : InputBuffer) (h : utf8Decode bytes = some cs) :
    recvStep st bytes = recvChars st cs := by
  simp [recvStep, recvChars, h]

/-- Composing two text receives is the same as receiving the concatenation:
the retained-fragment scheme loses nothing at a chunk boundary. -/
theorem recvChars_comp (st : InputBuffer) (c1 c2 : List Char) :
    recvChars (recvChars st c1) c2 = recvChars st (c1 ++ c2) := by
  simp only [recvChars, pySlice_zero_neg_one]
  rw [← List.append_assoc st.buffer c1 c2, splitCRLF_append (st.buffer ++ c1) c2]
  generalize hp : splitCRLF (st.buffer ++ c1) = P
  have hP : P ≠ [] := hp ▸ splitCRLF_ne_nil _
  rw [lastD_append_ne st.lines P [] hP, dropLast_append_ne st.lines P hP,
    List.append_assoc]

theorem feedAll_chars (chunks : List (List Nat)) :
    ∀ (st : InputBuffer) (c : List Char),
      (∀ x ∈ chunks, (utf8Decode x).isSome) →
      feedAll (recvChars st c) chunks =
        recvChars st (c ++ (chunks.map (fun x => (utf8Decode x).getD [])).flatten) := by
  induction chunks with
  | nil =>
    intro st c h
    simp [feedAll]
  | cons ch chs ih =>
    intro st c h
    have h1 : (utf8Decode ch).isSome := h ch (by simp)
    rcases hd : utf8Decode ch with _ | d
    · rw [hd] at h1; cases h1
    · rw [feedAll, recvStep_eq_recvChars _ hd, recvChars_comp,
        ih st (c ++ d) (fun x hx => h x (List.mem_cons_of_mem _ hx))]
      simp [hd, List.append_assoc]

theorem pyFind_ge (s pat : List Char) : -1 ≤ pyFind s pat := by
  induction s with
  | nil => rw [pyFind]; split_ifs <;> omega
  | cons a s ih =>
    rw [pyFind]
    split_ifs <;> omega

theorem pyContains_ne {s pat : List Char} (h : pyContains s pat = true) :
    pyFind s pat ≠ -1 := by
  simpa [pyContains, bne_iff_ne] using h

theorem pySlice_zero_nat {α : Type} (s : List α) (n : Nat) :
    pySlice s 0 (n : Int) = s.take (min n s.length) := by
  rw [pySlice, pyIdx_zero]
  have h : pyIdx s.length (n : Int) = min n s.length := by
    simp only [pyIdx]
    split_ifs <;> omega
  rw [h, List.drop_zero, Nat.sub_zero]

theorem pyFind_bang_slice (c : Char) :
    ∀ (s : List Char), pyFind s [c] ≠ -1 →
      pySlice s 0 (pyFind s [c]) = s.takeWhile (fun a => a != c) := by
  intro s
  induction s with
  | nil => intro h; rw [pyFind] at h; simp at h
  | cons a s ih =>
    intro h
    have hpre : ([c].isPrefixOf (a :: s)) = (c == a) := by
      simp [List.isPrefixOf]
    by_cases hac : c = a
    · rw [pyFind, hpre, if_pos (by simp [hac])]
      have h00 : pySlice (a :: s) 0 0 = ([] : List Char) := by
        rw [pySlice, pyIdx_zero]
        simp
      rw [h00, List.takeWhile_cons]
      have hfa : (a != c) = false := by simp [hac]
      rw [hfa]
      simp
    · have hfalse : (c == a) = false := by
        simp
        exact hac
      have hr : pyFind s [c] ≠ -1 := by
        rw [pyFind, hpre, hfalse, if_neg (by simp)] at h
        intro hcon
        rw [if_pos hcon] at h
        exact h rfl
      have hr0 : 0 ≤ pyFind s [c] := by
        have := pyFind_ge s [c]
        omega
      have hval : pyFind (a :: s) [c] = pyFind s [c] + 1 := by
        rw [pyFind, hpre, hfalse, if_neg (by simp), if_neg hr]
      have hanec : (a != c) = true := by
        simp only [bne_iff_ne, ne_eq]
        exact fun he => hac he.symm
      rw [hval, List.takeWhile_cons, if_pos hanec]
      have hc1 : pyFind s [c] + 1 = (((pyFind s [c]).toNat + 1 : Nat) : Int) := by omega
      have hc2 : pyFind s [c] = (((pyFind s [c]).toNat : Nat) : Int) := by omega
      rw [hc1, pySlice_zero_nat, List.length_cons, Nat.succ_min_succ, List.take_succ_cons]
      have hih := ih hr
      rw [hc2, pySlice_zero_nat] at hih
      rw [hih]

/-- Claim C1: the line `:nick!user@host PRIVMSG #chan :hello` parses to the
event with sender `nick`, command `PRIVMSG`, params `[#chan]` and trailing
`hello`; and in general, whenever a line whose first header (the prefix)
contains `!` produces an event, the event's sender is the prefix truncated at
the first `!`. -/
theorem claim1 :
    processLineEvent c1Line =
      some ⟨['n', 'i', 'c', 'k'], kPRIVMSG, [['#', 'c', 'h', 'a', 'n']],
        ['h', 'e', 'l', 'l', 'o']⟩ ∧
    ∀ (line : List Char) (ev : Event),
      processLineEvent line = some ev →
      pyContains ((parseHeaders line).1.headD []) ['!'] = true →
      ev.sender = ((parseHeaders line).1.headD []).takeWhile (fun a => a != '!') := by
  constructor
  · decide
  · intro line ev hres hcon
    have hne := pyContains_ne hcon
    have hsl := pyFind_bang_slice '!' ((parseHeaders line).1.headD []) hne
    rw [processLineEvent] at hres
    simp only at hres
    split at hres
    · cases hres
    · split at hres
      · split at hres
        · cases hres
        · injection hres with he
          rw [← he]
          exact hsl
      · injection hres with he
        rw [← he]
        exact hsl

/-- Witness for C1 at the scenario line: the dispatched sender is exactly the
prefix of the line truncated at its first `!`. -/
theorem claim1_witness :
    (processLineEvent c1Line).map Event.sender =
      some (((parseHeaders c1Line).1.headD []).takeWhile (fun a => a != '!')) := by
  have h := claim1.2 c1Line
    ⟨['n', 'i', 'c', 'k'], kPRIVMSG, [['#', 'c', 'h', 'a', 'n']], ['h', 'e', 'l', 'l', 'o']⟩
    claim1.1 (by decide)
  rw [claim1.1]
  exact congrArg some h

/-- Claim C3 counterexample: on the line `PING :abc` the engine sends
`PONG :abc` (the second whitespace token verbatim, colon retained), not
`PONG abc` as the claim states. -/
theorem claim3_counterexample :
    periodicRecv st0 (RecvOutcome.line kPingAbc) true =
      some ({ st0 with sent := [kPongColonAbc] }, some (10, 1)) ∧
    kPongColonAbc ≠ kPongAbc := by
  constructor
  · decide
  · decide

/-- Claim C3 (amended): for every line starting with `PING` that has a second
whitespace-separated token, the engine immediately sends `PONG ` followed by
that token verbatim (for `PING :abc` this is `PONG :abc`) via the unbuffered
send: the output queue is untouched (no queued output is processed first) and
the line is never passed to the parser or the dispatch table (every engine
field except the wire trace is unchanged); the receive poll then re-schedules
itself. -/
theorem claim3 (st : BotState) (l tok : List Char)
    (hso : st.socketOpen = true)
    (hping : kPING.isPrefixOf l = true)
    (htok : (pySplitWs l).get? 1 = some tok) :
    periodicRecv st (RecvOutcome.line l) true =
      some ({ st with sent := st.sent ++ [kPONGsp ++ tok] }, some (10, 1)) := by
  have htok2 : (pySplitWs l)[1]? = some tok := by
    rw [← List.get?_eq_getElem?]
    exact htok
  simp [periodicRecv, hso, hping, htok2, sendImmediately]

/-- Witness for C3: the amended claim at the scenario state and line. -/
theorem claim3_witness :
    periodicRecv st0 (RecvOutcome.line kPingAbc) true =
      some ({ st0 with sent := st0.sent ++ [kPONGsp ++ [':', 'a', 'b', 'c']] }, some (10, 1)) :=
  claim3 st0 kPingAbc [':', 'a', 'b', 'c'] (by decide) (by decide) (by decide)

/-- Claim C6: while the socket is open, each `__periodicSend` invocation
removes and sends at most one message (the oldest, FIFO) and re-schedules
itself after one second (priority 10); on an empty queue it sends nothing and
re-schedules; on a socket error the connection is closed (marked failed, the
buffered queue is discarded with it), the drain is not re-scheduled, and the
failed message is neither sent nor requeued. -/
theorem claim6 (st : BotState) (ok : Bool) (hso : st.socketOpen = true) :
    (st.outQueue = [] → periodicSend st ok = (st, some (1000, 10))) ∧
    (∀ m rest, st.outQueue = m :: rest →
      (ok = true →
        periodicSend st ok =
          ({ st with outQueue := rest, sent := st.sent ++ [m] }, some (1000, 10))) ∧
      (ok = false →
        periodicSend st ok =
          ({ st with outQueue := [], socketOpen := false, connected := false }, none))) := by
  constructor
  · intro hq
    simp [periodicSend, hso, sendFromQueue, hq]
  · intro m rest hq
    constructor
    · intro hok
      subst hok
      simp [periodicSend, hso, sendFromQueue, hq, sendImmediately]
    · intro hok
      subst hok
      simp [periodicSend, hso, sendFromQueue, hq, sendImmediately, close]

/-- Witness for C6 at a concrete state: one queued message, send fails, the
connection is closed and nothing is retried. -/
theorem claim6_witness :
    periodicSend { st0 with outQueue := [['h', 'i']] } false =
      ({ st0 with outQueue := [], socketOpen := false, connected := false }, none) :=
  ((claim6 { st0 with outQueue := [['h', 'i']] } false (by decide)).2
    ['h', 'i'] [] (by decide)).2 rfl

/-- Claim C9 (what the code actually does at the claim's input): calling
`identify` while not connected, with no WHOIS in flight, appends the pending
record and then raises — `send` passes three arguments to the one-parameter
`__debugPrint`, so a `TypeError` escapes `send` (and `identify`) before
`self.identifyLock = True` is reached.  The lock is left unset, contrary to
the claim's "the lock is then held", and no WHOIS is queued or sent. -/
theorem claim9 (st : BotState) (nick : List Char) (a r : Nat)
    (hc : st.connected = false) (hl : st.identifyLock = false) :
    identifyFn st nick a r =
      ({ st with identifyNickCommands := st.identifyNickCommands ++ [⟨nick, a, r⟩] }, false) := by
  rcases st with ⟨so, co, cmds, lock, up, dll, cd, bn, oq, snt, cls, dsp⟩
  simp only at hc hl
  subst hc
  subst hl
  simp [identifyFn, sendFn]

/-- Witness for C9's code-behavior theorem at a concrete disconnected state:
the record is appended, the lock stays false, and the exception escapes. -/
theorem claim9_witness :
    identifyFn { st0 with connected := false } ['b', 'o', 'b'] 1 2 =
      ({ st0 with connected := false,
                  identifyNickCommands := [⟨['b', 'o', 'b'], 1, 2⟩] }, false) :=
  claim9 { st0 with connected := false } ['b', 'o', 'b'] 1 2 rfl rfl

theorem assocGet_assocSet_self {α : Type} (m : List (List Char × α)) (k : List Char) (v : α) :
    assocGet (assocSet m k v) k = some v := by
  induction m with
  | nil => simp [assocGet, assocSet]
  | cons p rest ih =>
    rcases p with ⟨k2, v2⟩
    by_cases hk : k2 = k
    · simp [assocSet, assocGet, hk]
    · simp [assocSet, assocGet, hk, ih]

/-- Claim C10: every `joinchan(channel)` call replaces that channel's state
with an empty log and the default capacity — including when the channel was
already joined, discarding everything previously logged for it.  The
replacement happens before the JOIN is sent, so it holds of the resulting
state even when `send` raises while disconnected. -/
theorem claim10 (st : BotState) (channel : List Char) :
    assocGet (joinchanFn st channel).1.channel_data channel =
      some ⟨[], st.default_log_length⟩ := by
  have h2 : ∀ (s : BotState) (x : List Char), (sendFn s x).1.channel_data = s.channel_data := by
    intro s x
    rw [sendFn]
    split <;> rfl
  simp only [joinchanFn]
  rw [h2]
  exact assocGet_assocSet_self _ _ _

theorem logMany_append (st : BotState) (channel : List Char)
    (xs ys : List (List Char × List Char × List (List Char) × List Char)) :
    logMany st channel (xs ++ ys) = logMany (logMany st channel xs) channel ys := by
  induction xs generalizing st with
  | nil => rfl
  | cons x xs ih => rw [List.cons_append, logMany, logMany, ih]

theorem pySliceFrom_neg {α : Type} (l : List α) (n : Nat) (hn : 1 ≤ n) :
    pySliceFrom l (-(n : Int)) = l.drop (l.length - n) := by
  rw [pySliceFrom]
  congr 1
  simp only [pyIdx]
  split_ifs <;> omega

theorem assocGet_mem {α : Type} {m : List (List Char × α)} {k : List Char} {v : α}
    (h : assocGet m k = some v) : (k, v) ∈ m := by
  induction m with
  | nil => simp [assocGet] at h
  | cons p rest ih =>
    rcases p with ⟨k2, v2⟩
    rw [assocGet] at h
    split_ifs at h with hk
    · injection h with h2
      subst hk; subst h2
      simp
    · exact List.mem_cons_of_mem _ (ih h)

theorem mem_assocSet {α : Type} {m : List (List Char × α)} {k : List Char} {v : α}
    {p : List Char × α} (h : p ∈ assocSet m k v) : p ∈ m ∨ p = (k, v) := by
  induction m with
  | nil => simp [assocSet] at h; simp [h]
  | cons q rest ih =>
    rcases q with ⟨k2, v2⟩
    rw [assocSet] at h
    split_ifs at h with hk
    · rcases List.mem_cons.mp h with h2 | h2
      · right; exact h2
      · left; exact List.mem_cons_of_mem _ h2
    · rcases List.mem_cons.mp h with h2 | h2
      · left; simp [h2]
      · rcases ih h2 with h3 | h3
        · left; exact List.mem_cons_of_mem _ h3
        · right; exact h3

theorem assocGet_assocSet_ne {α : Type} (m : List (List Char × α)) (k k2 : List Char)
    (v : α) (h : k ≠ k2) : assocGet (assocSet m k v) k2 = assocGet m k2 := by
  induction m with
  | nil => simp [assocGet, assocSet, h]
  | cons p rest ih =>
    rcases p with ⟨k3, v3⟩
    by_cases hk : k3 = k
    · subst hk
      simp [assocSet, assocGet, h]
    · simp [assocSet, assocGet, hk, ih]

theorem logMany_no_trim (channel : List Char) :
    ∀ (es : List (List Char × List Char × List (List Char) × List Char))
      (st : BotState) (l : List (List Char × List Char × List (List Char) × List Char))
      (n : Nat),
      assocGet st.channel_data channel = some ⟨l, n⟩ →
      l.length + es.length ≤ n →
      assocGet (logMany st channel es).channel_data channel = some ⟨l ++ es, n⟩ := by
  intro es
  induction es with
  | nil =>
    intro st l n hget hlen
    simpa [logMany] using hget
  | cons e es ih =>
    intro st l n hget hlen
    rw [logMany, logFn, hget]
    simp only
    rw [if_neg (by simp at hlen ⊢; omega)]
    have hget2 : assocGet (assocSet st.channel_data channel
        ⟨l ++ [(e.1, e.2.1, e.2.2.1, e.2.2.2)], n⟩) channel =
        some ⟨l ++ [(e.1, e.2.1, e.2.2.1, e.2.2.2)], n⟩ :=
      assocGet_assocSet_self _ _ _
    have := ih { st with channel_data := assocSet st.channel_data channel (ChanData.mk (l ++ [(e.1, e.2.1, e.2.2.1, e.2.2.2)]) n) }
      (l ++ [(e.1, e.2.1, e.2.2.1, e.2.2.2)]) n hget2
      (by simp at hlen ⊢; omega)
    simpa [List.append_assoc] using this

/-- Claim C5 counterexample: with a configured capacity of 0, a single log
call leaves the channel's log holding one entry, exceeding its capacity —
Python's `log[-0:]` is `log[0:]`, the whole list, so the trim never removes
anything when `log_length` is 0. -/
theorem claim5_counterexample :
    (assocGet (logFn chan0St ['#', 'c'] kPRIVMSG ['n'] [['#', 'c']] ['h']).channel_data
      ['#', 'c']).any (fun cd => cd.log_length < cd.log.length) = true := by decide

/-- Claim C5 (amended): provided every joined channel's configured capacity is
at least 1 (capacity 0 disables trimming because `log[-0:]` is the whole
list), `log` keeps every known channel's log at or below its capacity; a
channel at capacity evicts oldest-first, so capacity+1 appends into an empty
log leave exactly the last capacity entries (the first entry is gone, the
newest is present); and a log call for a channel that was never joined leaves
the whole state unchanged. -/
theorem claim5 :
    (∀ (st : BotState) (ch mt sd : List Char) (hd : List (List Char)) (ms : List Char),
      (∀ p ∈ st.channel_data, 1 ≤ p.2.log_length ∧ p.2.log.length ≤ p.2.log_length) →
      ∀ p ∈ (logFn st ch mt sd hd ms).channel_data, p.2.log.length ≤ p.2.log_length) ∧
    (∀ (st : BotState) (ch : List Char) (n : Nat)
      (es : List (List Char × List Char × List (List Char) × List Char)),
      assocGet st.channel_data ch = some ⟨[], n⟩ → 1 ≤ n → es.length = n + 1 →
      assocGet (logMany st ch es).channel_data ch = some ⟨es.drop 1, n⟩) ∧
    (∀ (st : BotState) (ch mt sd : List Char) (hd : List (List Char)) (ms : List Char),
      assocGet st.channel_data ch = none → logFn st ch mt sd hd ms = st) := by
  refine ⟨?_, ?_, ?_⟩
  · intro st ch mt sd hd ms hinv p hp
    rw [logFn] at hp
    rcases hcd : assocGet st.channel_data ch with _ | cd
    · rw [hcd] at hp
      exact (hinv p hp).2
    · rw [hcd] at hp
      simp only at hp
      rcases mem_assocSet hp with h2 | h2
      · exact (hinv p h2).2
      · subst h2
        have hcap := (hinv (ch, cd) (assocGet_mem hcd)).1
        dsimp only at hcap ⊢
        split_ifs with htrim
        all_goals first
          | (rw [pySliceFrom_neg _ _ hcap, List.length_drop]; omega)
          | omega
  · intro st ch n es hget hn hlen
    rcases List.eq_nil_or_concat es with hnil | ⟨xs, e, hxe⟩
    · subst hnil
      simp at hlen
    · subst hxe
      rw [List.concat_eq_append] at hlen ⊢
      have hxslen : xs.length = n := by
        simp at hlen
        omega
      have hmid := logMany_no_trim ch xs st [] n hget (by simp [hxslen])
      rw [List.nil_append] at hmid
      rw [logMany_append, logMany, logMany, logFn, hmid]
      simp only
      rw [if_pos (by simp; omega)]
      rw [assocGet_assocSet_self]
      have hdrop : pySliceFrom (xs ++ [(e.1, e.2.1, e.2.2.1, e.2.2.2)]) (-(n : Int)) =
          (xs ++ [e]).drop 1 := by
        rw [pySliceFrom_neg _ _ hn]
        congr 1
        simp [hxslen]
      rw [hdrop]
  · intro st ch mt sd hd ms hnone
    simp [logFn, hnone]

/-- Witness for C5: two appends into an empty capacity-1 log leave exactly the
newest entry; the oldest is evicted. -/
theorem claim5_witness :
    assocGet (logMany cap1St ['#', 'c']
      [(['A'], ['s'], [], ['1']), (['B'], ['s'], [], ['2'])]).channel_data ['#', 'c'] =
      some ⟨[(['B'], ['s'], [], ['2'])], 1⟩ :=
  claim5.2.1 cap1St ['#', 'c'] 1 [(['A'], ['s'], [], ['1']), (['B'], ['s'], [], ['2'])]
    (by decide) (by decide) (by decide)

theorem identResolve_spec (isAcc : Bool) (nick : List Char) (l : List IdRec) :
    identResolve isAcc nick l =
      ((l.filter (fun r => r.nick == nick)).map
        (fun r => if isAcc then CallEv.accept r.acceptId else CallEv.reject r.rejectId),
       l.filter (fun r => !(r.nick == nick))) := by
  induction l with
  | nil => simp [identResolve]
  | cons r rs ih =>
    by_cases h : r.nick = nick
    · simp [identResolve, h, ih, List.filter_cons]
    · simp [identResolve, h, ih, List.filter_cons]

theorem callBind_identifyNickCommands (s : BotState) (m : List Char) :
    (callBind s m).identifyNickCommands = s.identifyNickCommands := by
  rw [callBind]
  split <;> rfl

theorem callBind_calls (s : BotState) (m : List Char) :
    (callBind s m).calls = s.calls := by
  rw [callBind]
  split <;> rfl

theorem callBind_outQueue (s : BotState) (m : List Char) :
    (callBind s m).outQueue = s.outQueue := by
  rw [callBind]
  split <;> rfl

theorem callBind_identifyLock (s : BotState) (m : List Char) :
    (callBind s m).identifyLock = s.identifyLock := by
  rw [callBind]
  split <;> rfl

/-- Claim C4: on a 318 numeric naming a nick (from a server prefix without
`!`), every pending identify record for that nick is resolved via its reject
callback, in registration order, and removed; accept callbacks are never
invoked; afterwards, if pending records remain, a WHOIS for the new head of
the list is queued and the lock is untouched, otherwise the in-flight lock is
released and nothing is queued. -/
theorem claim4 (st st2 : BotState) (line : List Char) (hs : List (List Char))
    (msg nick : List Char)
    (hparse : parseHeaders line = (hs, msg))
    (hlen : 4 ≤ hs.length)
    (hnb : pyContains (hs.headD []) ['!'] = false)
    (hcmd : hs.getD 1 [] = k318)
    (hnick : hs.getD 3 [] = nick)
    (hres : processLine st line = some st2) :
    st2.identifyNickCommands = st.identifyNickCommands.filter (fun r => !(r.nick == nick)) ∧
    st2.calls = st.calls ++ (st.identifyNickCommands.filter (fun r => r.nick == nick)).map
      (fun r => CallEv.reject r.rejectId) ∧
    (st2.identifyNickCommands = [] → st2.identifyLock = false ∧ st2.outQueue = st.outQueue) ∧
    (st2.identifyNickCommands ≠ [] → st2.identifyLock = st.identifyLock ∧
      st2.outQueue = st.outQueue ++
        [kWHOISsp ++ ((st.identifyNickCommands.filter (fun r => !(r.nick == nick))).headD ⟨[], 0, 0⟩).nick]) := by
  rw [processLine, hparse] at hres
  simp only at hres
  rw [if_neg (by omega)] at hres
  rw [hnb] at hres
  simp only [Bool.false_eq_true, if_false] at hres
  rw [hcmd] at hres
  rw [if_pos (⟨rfl, hlen⟩ : k318 = k318 ∧ 4 ≤ hs.length)] at hres
  rw [if_neg (show ¬ ((k318 = k307 ∨ k318 = k330) ∧ 4 ≤ hs.length) by
    intro hc
    rcases hc.1 with h | h <;> exact absurd h (by decide))] at hres
  rw [if_neg (show ¬ k318 = k376 by decide)] at hres
  rw [hnick] at hres
  rw [identRejectFn, identResolve_spec] at hres
  simp only at hres
  injection hres with he
  subst he
  by_cases hempty : List.filter (fun r => !(r.nick == nick)) st.identifyNickCommands = []
  · rw [if_pos (show (List.filter (fun r => !(r.nick == nick)) st.identifyNickCommands).length = 0
      by rw [hempty]; rfl)]
    simp [callBind_identifyNickCommands, callBind_calls, callBind_outQueue,
      callBind_identifyLock, hempty]
  · rw [if_neg (show ¬ (List.filter (fun r => !(r.nick == nick)) st.identifyNickCommands).length = 0
      by simpa [List.length_eq_zero] using hempty)]
    simp [callBind_identifyNickCommands, callBind_calls, callBind_outQueue,
      callBind_identifyLock, hempty, sendBuffered]

/-- Witness for C4 at the scenario: after `identify("bob", ...)` and a bare
`318` for bob, the reject callback is invoked exactly once, no accept
callback is invoked, the pending list is empty and the lock is released. -/
theorem claim4_witness :
    c4After.calls = c4State.calls ++
      ((c4State.identifyNickCommands.filter (fun r => r.nick == ['b', 'o', 'b'])).map
        (fun r => CallEv.reject r.rejectId)) ∧
    c4After.identifyNickCommands = [] ∧ c4After.identifyLock = false := by
  have h := claim4 c4State c4After k318Line
    [['s', 'r', 'v'], k318, ['m', 'e'], ['b', 'o', 'b']] [] ['b', 'o', 'b']
    (by decide) (by decide) (by decide) (by decide) (by decide) (by decide)
  exact ⟨h.2.1, by decide, (h.2.2.1 (by decide)).1⟩

/-- Claim C8: (i) a PONG line (server-prefixed, commanded PONG, with the
engine's own PONG binding in place) changes the engine state only by clearing
the awaiting-pong flag — the dispatch that performs this goes to the engine's
internal handler, so no host callback is invoked; (ii) an incoming PING line
is answered inside the engine before the parser: nothing is dispatched and no
state other than the wire trace changes. -/
theorem claim8 :
    (∀ (st : BotState) (l : List Char) (hs : List (List Char)) (msg : List Char) (ok : Bool),
      st.socketOpen = true →
      kPING.isPrefixOf l = false →
      parseHeaders l = (hs, msg) →
      2 ≤ hs.length →
      hs.getD 1 [] = kPONG →
      assocGet st.binds kPONG = some Handler.pongHandler →
      periodicRecv st (RecvOutcome.line l) ok =
        some ({ st with unansweredPing := false,
                        dispatches := st.dispatches ++ [Handler.pongHandler] }, some (10, 1))) ∧
    (∀ (st : BotState) (l tok : List Char),
      st.socketOpen = true →
      kPING.isPrefixOf l = true →
      (pySplitWs l).get? 1 = some tok →
      periodicRecv st (RecvOutcome.line l) true =
        some ({ st with sent := st.sent ++ [kPONGsp ++ tok] }, some (10, 1))) := by
  constructor
  · intro st l hs msg ok hso hnp hparse hlen hcmd hbind
    have hcb : callBind st kPONG =
        { st with unansweredPing := false,
                  dispatches := st.dispatches ++ [Handler.pongHandler] } := by
      rw [callBind, hbind]
    have hpl : processLine st l = some (callBind st kPONG) := by
      rw [processLine, hparse]
      simp only
      rw [if_neg (by omega)]
      by_cases hbang : pyContains (hs.headD []) ['!'] = true
      · rw [hbang]
        simp only [if_true]
        rw [hcmd]
        rw [if_neg (show ¬ kPONG = kPRIVMSG by decide)]
      · have hbf : pyContains (hs.headD []) ['!'] = false := by
          cases h2 : pyContains (hs.headD []) ['!']
          · rfl
          · exact absurd h2 hbang
        rw [hbf]
        simp only [Bool.false_eq_true, if_false]
        rw [hcmd]
        rw [if_neg (show ¬ (kPONG = k318 ∧ 4 ≤ hs.length) by
          intro hc; exact absurd hc.1 (by decide))]
        rw [if_neg (show ¬ ((kPONG = k307 ∨ kPONG = k330) ∧ 4 ≤ hs.length) by
          intro hc; rcases hc.1 with h | h <;> exact absurd h (by decide))]
        rw [if_neg (show ¬ kPONG = k376 by decide)]
    simp [periodicRecv, hso, hnp, hpl, hcb]
  · intro st l tok hso hping htok
    have htok2 : (pySplitWs l)[1]? = some tok := by
      rw [← List.get?_eq_getElem?]
      exact htok
    simp [periodicRecv, hso, hping, htok2, sendImmediately]

/-- Witness for C8: a concrete PONG line only clears the awaiting-pong flag
(dispatching to the engine's internal handler), and a concrete PING line is
answered on the wire with nothing dispatched. -/
theorem claim8_witness :
    periodicRecv stAwait (RecvOutcome.line kPongLine) true =
      some ({ stAwait with unansweredPing := false,
                           dispatches := [Handler.pongHandler] }, some (10, 1)) ∧
    periodicRecv st0 (RecvOutcome.line kPingAbc) true =
      some ({ st0 with sent := [kPONGsp ++ [':', 'a', 'b', 'c']] }, some (10, 1)) := by
  constructor
  · exact claim8.1 stAwait kPongLine [['s', 'r', 'v'], kPONG, ['s', 'r', 'v']] [] true
      (by decide) (by decide) (by decide) (by decide) (by decide) (by decide)
  · exact claim8.2 st0 kPingAbc [':', 'a', 'b', 'c'] (by decide) (by decide) (by decide)

/-- Claim C2 counterexample: the byte stream for `ä\r\n` (`C3 A4 0D 0A`)
split between the two bytes of `ä` decodes to nothing chunk by chunk (each
chunk fails strict UTF-8 decoding, and a failed receive drops the data), so
the incremental feed produces no lines while the whole stream at once
produces the line `ä`. -/
theorem claim2_counterexample :
    feedAll ⟨[], []⟩ [[0xC3], [0xA4, 13, 10]] = ⟨[], []⟩ ∧
    recvStep ⟨[], []⟩ ([[0xC3], [0xA4, 13, 10]] : List (List Nat)).flatten =
      ⟨[], [[Char.ofNat 228]]⟩ ∧
    (⟨[], []⟩ : InputBuffer) ≠ ⟨[], [[Char.ofNat 228]]⟩ := by
  refine ⟨by decide, by decide, by decide⟩

/-- Claim C2 (amended): for every byte stream and every way of splitting it
into chunks in which each chunk is itself valid UTF-8 (no multi-byte
character straddles a chunk boundary), feeding the chunks one at a time
through the Line Framer produces exactly the same state — the same ordered
sequence of complete lines and the same retained fragment — as feeding the
whole stream at once. -/
theorem claim2 (chunks : List (List Nat))
    (h : ∀ c ∈ chunks, (utf8Decode c).isSome) :
    feedAll ⟨[], []⟩ chunks = recvStep ⟨[], []⟩ chunks.flatten := by
  rw [recvStep_eq_recvChars _ (utf8Decode_flatten chunks h)]
  cases chunks with
  | nil => rfl
  | cons ch chs =>
    have h1 : (utf8Decode ch).isSome := h ch (by simp)
    rcases hd : utf8Decode ch with _ | d
    · rw [hd] at h1; cases h1
    · have hinit : recvChars ⟨[], []⟩ d = recvChars (⟨[], []⟩ : InputBuffer) ([] ++ d) := by
        rw [List.nil_append]
      rw [feedAll, recvStep_eq_recvChars _ hd, hinit,
        feedAll_chars chs ⟨[], []⟩ ([] ++ d) (fun x hx => h x (List.mem_cons_of_mem _ hx))]
      simp [hd]

/-- Witness for C2: a two-chunk split of `Hi\r\nB` (all ASCII, so every chunk
decodes) behaves exactly like the whole stream at once. -/
theorem claim2_witness :
    feedAll ⟨[], []⟩ [[72, 105, 13], [10, 66]] =
      recvStep ⟨[], []⟩ ([[72, 105, 13], [10, 66]] : List (List Nat)).flatten :=
  claim2 [[72, 105, 13], [10, 66]] (by decide)

/-- Claim C7 counterexample: a receive that fails UTF-8 decoding does not
leave the retained fragment unchanged — the fragment is discarded, because
the guarded expression `self.buffer + recv().decode()` is replaced by the
empty string as a whole. -/
theorem claim7_counterexample :
    (recvStep ⟨['a', 'b', 'c'], []⟩ [0xFF]).buffer ≠
      (⟨['a', 'b', 'c'], []⟩ : InputBuffer).buffer := by decide

/-- Claim C7 (amended): if decoding the received bytes fails, no complete
line is produced and the receive is not fatal, but the retained fragment is
discarded (reset to empty) rather than kept for the next receive. -/
theorem claim7 (st : InputBuffer) (bytes : List Nat)
    (h : utf8Decode bytes = none) :
    recvStep st bytes = ⟨[], st.lines⟩ := by
  simp only [recvStep, h, pySlice_zero_neg_one]
  rw [lastD_append_ne st.lines (splitCRLF []) [] (splitCRLF_ne_nil _),
    dropLast_append_ne st.lines (splitCRLF []) (splitCRLF_ne_nil _)]
  simp [splitCRLF, lastD]

/-- Witness for C7: a non-empty fragment plus an invalid byte run leaves the
line queue unchanged and resets the fragment to empty. -/
theorem claim7_witness :
    recvStep ⟨['a', 'b'], [['x']]⟩ [0xFF] = ⟨[], [['x']]⟩ :=
  claim7 ⟨['a', 'b'], [['x']]⟩ [0xFF] (by decide)

end Irc
